import Mathlib

/-!
Verification development for the `endgame` plotting scripts
(`plot/plot_cs.py` and `plot/plot_endgame.py`).

The scripts read a text index of timestamps (`np.loadtxt(...).astype(int)`),
then for each timestamp and tile read flat binary files of IEEE-754 float64
values (`np.fromfile(open(path, 'rb'), dtype=np.float64)`), reshape them
into 2-D grids (`np.reshape(z, (R, C))`), assemble them into field arrays
and render one image per (timestamp, field).

Shallow embedding conventions:
  * a byte is a `Nat`; a float64 value is represented by its 8-byte
    pattern (a `List Nat` of length 8) — IEEE-754 decoding is a bijection
    on 8-byte patterns and none of the layout/control-flow properties here
    depend on the numeric value of a double;
  * the file system is a pair of partial maps, `String → Option String`
    for text files and `String → Option (List Nat)` for binary files
    (`none` = the path does not exist);
  * fallible library calls are modelled with `Option`/`Except`:
    `np.reshape` raises on a length mismatch (here: `none`), `open` raises
    `FileNotFoundError` on a missing path, `np.loadtxt` raises on a missing
    or unparsable file, `len()` of a 0-d array raises `TypeError`, and
    reading an unassigned variable raises `NameError`;
  * color-scale bounds (Python floats assigned from decimal literals) are
    represented exactly as rationals `ℚ`.
-/

/-! ### Decimal rendering of integers (Python `str`)

`natDigits n` is the decimal digit string of a natural number, computed
with an explicit fuel argument so that it is structural (and hence reduces
inside the kernel); `n + 1` units of fuel always suffice since `n / 10`
strictly decreases. `intDigits` renders a Python `int` (a possibly
negative timestamp): a leading `'-'` followed by the digits of the
absolute value. -/

def natDigitsAux : Nat → Nat → List Char
  | 0, _ => []
  | fuel + 1, n =>
      if n < 10 then [Nat.digitChar n]
      else natDigitsAux fuel (n / 10) ++ [Nat.digitChar (n % 10)]

def natDigits (n : Nat) : List Char := natDigitsAux (n + 1) n

def natStr (n : Nat) : String := String.mk (natDigits n)

def intDigits (i : Int) : List Char :=
  if i < 0 then '-' :: natDigits i.natAbs else natDigits i.toNat

def intStr (i : Int) : String := String.mk (intDigits i)

/-! ### Hardcoded directories and constants (plot_cs.py 8-11, plot_endgame.py 9-12) -/

def datadir : String := "../dump/"

def graphdir : String := "../graphs/"

def figformat : String := "png"

def nbfaces : Nat := 6

/-! ### Binary snapshot deserialization

`fromfile` models `np.fromfile(f, dtype=np.float64)`: the byte stream is
cut into consecutive 8-byte items; a trailing run of fewer than 8 bytes
does not form an item and is discarded (numpy reads `⌊len/8⌋` complete
items and ignores the remainder — it does not raise).

`reshape` models `np.reshape(z, (R, C))` of a 1-d array of length
`z.length` into an `R × C` row-major matrix: it raises (`none`) unless
`z.length = R * C`, and otherwise element `(i, j)` is `z[i*C + j]`.

`loadTileField bs R C` is the composite loader used at plot_cs.py 54-56 /
plot_endgame.py 61-63: read all bytes, interpret as float64 items,
reshape to `(R, C)`. -/

def fromfile : List Nat → List (List Nat)
  | b0 :: b1 :: b2 :: b3 :: b4 :: b5 :: b6 :: b7 :: rest =>
      [b0, b1, b2, b3, b4, b5, b6, b7] :: fromfile rest
  | _ => []

def reshape {α : Type} (z : List α) (R C : Nat) : Option (Fin R → Fin C → α) :=
  if h : z.length = R * C then
    some (fun i j =>
      z.get ⟨i.1 * C + j.1, by
        rw [h]
        calc i.1 * C + j.1 < i.1 * C + C := Nat.add_lt_add_left j.isLt _
          _ = (i.1 + 1) * C := by ring
          _ ≤ R * C := Nat.mul_le_mul_right C i.isLt⟩)
  else none

def loadTileField (bs : List Nat) (R C : Nat) : Option (Fin R → Fin C → List Nat) :=
  reshape (fromfile bs) R C

/-! ### Snapshot and output file names

plot_cs.py 52-53 (per field / timestamp / 1-based face), plot_cs.py 95 /
101 / 108 (output stem), plot_endgame.py 60 (data file) and 103-104
(output stem). -/

def csFilename (tc gtype N : Nat) (field : String) (time : Int) (face : Nat) : String :=
  "tc" ++ natStr tc ++ "_g" ++ natStr gtype ++ "_N" ++ natStr N ++ "_" ++ field
    ++ "_t" ++ intStr time ++ "_face" ++ natStr face ++ ".dat"

def csOutName (tc gtype N : Nat) (field : String) (time : Int) : String :=
  graphdir ++ "tc" ++ natStr tc ++ "_g" ++ natStr gtype ++ "_N" ++ natStr N
    ++ "_" ++ field ++ "_t" ++ intStr time

def egOutStem (tc : Nat) (name : String) (time : Int) (N M : Nat) : String :=
  "eg_swe_run_ic" ++ natStr tc ++ "_cor1_" ++ name ++ "_t" ++ intStr time
    ++ "_" ++ natStr N ++ "x" ++ natStr M

def egFilename (tc : Nat) (name : String) (time : Int) (N M : Nat) : String :=
  egOutStem tc name time N M ++ ".dat"

def idxFilename (tc : Nat) : String :=
  datadir ++ "TC" ++ natStr tc ++ "_reftimes.dat"

/-! ### Index loading: `np.loadtxt(...).astype(int)` (plot_cs.py 35, plot_endgame.py 26)

`np.loadtxt` on the simulator's reftimes files (a flat whitespace/newline
separated list of integer timestamps) tokenizes the text and parses each
token; the resulting array is squeezed, so exactly one token yields a 0-d
array and any other number of tokens yields a 1-d array.  `.astype(int)`
keeps the dimensionality.  A missing file raises (`FileNotFoundError`),
an unparsable token raises (`ValueError`), and `len()` of the 0-d result
raises `TypeError` at the array-allocation line. -/

def tokens : List Char → List Char → List (List Char)
  | [], acc => if acc = [] then [] else [acc.reverse]
  | c :: rest, acc =>
      if c = ' ' ∨ c = '\n' ∨ c = '\t' then
        if acc = [] then tokens rest [] else acc.reverse :: tokens rest []
      else tokens rest (c :: acc)

def parseNatAux : List Char → Nat → Option Nat
  | [], acc => some acc
  | c :: rest, acc =>
      if c.isDigit then parseNatAux rest (10 * acc + (c.toNat - 48)) else none

def parseNatTok (cs : List Char) : Option Nat :=
  if cs = [] then none else parseNatAux cs 0

def parseIntTok : List Char → Option Int
  | '-' :: rest => (parseNatTok rest).map (fun n => -(n : Int))
  | cs => (parseNatTok cs).map (fun n => (n : Int))

def parseToks : List (List Char) → Option (List Int)
  | [] => some []
  | t :: rest =>
      match parseIntTok t with
      | none => none
      | some x =>
          match parseToks rest with
          | none => none
          | some xs => some (x :: xs)

/-- A numpy integer array as produced by `np.loadtxt(...).astype(int)` on a
flat token list: 0-dimensional (squeezed single value) or 1-dimensional. -/
inductive NpIntArr
  | scalar (x : Int)
  | vec (xs : List Int)
  deriving DecidableEq

/-- Failure conditions of the scripts (spec §7 taxonomy): missing or
unparsable index file, `len()` of an unsized (0-d) object, missing
snapshot file, reshape size mismatch, and use of an unassigned
color-scale variable. -/
inductive Err
  | missingIndexFile
  | malformedIndex
  | lenTypeError
  | fileNotFound (path : String)
  | shapeMismatch (path : String)
  | nameError (var : String)
  deriving DecidableEq

def loadtxtInt (fsT : String → Option String) (path : String) : Except Err NpIntArr :=
  match fsT path with
  | none => .error .missingIndexFile
  | some s =>
      match parseToks (tokens s.data []) with
      | none => .error .malformedIndex
      | some [x] => .ok (.scalar x)
      | some xs => .ok (.vec xs)

/-! ### Per-field assembly (plot_cs.py 40-74)

The script allocates `h = np.zeros((N, N, 6, len(timedata)))` and, for
each timestamp `t` (outer loop) and face `p` (inner loop), opens
`datadir + filename`, deserializes, reshapes to `(N, N)` and stores the
result in the slice `h[:, :, p, t]` — and likewise for `u` and `v` with
their own file names.  `assembleField` is that loop for one named field:
it returns the final array together with the ordered list of file paths
read, or the first exception. -/

/-- A 4-d cubed-sphere field array `(row, col, face, time)`; cells hold
8-byte float64 patterns. -/
def Arr (N T : Nat) : Type := Fin N → Fin N → Fin 6 → Fin T → List Nat

/-- The 8-byte pattern of float64 `0.0`, the `np.zeros` fill. -/
def zeroDouble : List Nat := [0, 0, 0, 0, 0, 0, 0, 0]

/-- `A[:, :, p, t] = z`, leaving all other `(face, time)` slices unchanged. -/
def writeSlice {N T : Nat} (A : Arr N T) (p : Fin 6) (t : Fin T)
    (z : Fin N → Fin N → List Nat) : Arr N T :=
  fun i j p' t' => if p' = p ∧ t' = t then z i j else A i j p' t'

/-- The iteration space of the loading loop, timestamp outer, face inner. -/
def allPairs (T : Nat) : List (Fin T × Fin 6) :=
  List.finRange T ×ˢ List.finRange 6

def assembleGo (fsB : String → Option (List Nat)) (tc gtype N : Nat) (field : String)
    (times : List Int) :
    List (Fin times.length × Fin 6) → Arr N times.length →
      Except Err (Arr N times.length × List String)
  | [], A => .ok (A, [])
  | (t, p) :: rest, A =>
      let path := datadir ++ csFilename tc gtype N field (times.get t) (p.1 + 1)
      match fsB path with
      | none => .error (.fileNotFound path)
      | some bs =>
          match loadTileField bs N N with
          | none => .error (.shapeMismatch path)
          | some z =>
              match assembleGo fsB tc gtype N field times rest (writeSlice A p t z) with
              | .error e => .error e
              | .ok (A', tr) => .ok (A', path :: tr)

def assembleField (fsB : String → Option (List Nat)) (tc gtype N : Nat) (field : String)
    (times : List Int) : Except Err (Arr N times.length × List String) :=
  assembleGo fsB tc gtype N field times (allPairs times.length)
    (fun _ _ _ _ => zeroDouble)

/-! ### Control-flow and event-trace models of the two driver scripts

These record what the scripts *do* — file reads, renderer invocations,
figure creation/saving/closing — and where they raise.  Array contents
are covered by `loadTileField`/`assembleField`; here a successful read
only checks what can raise (`open`, `np.reshape`). -/

/-- Observable events of a script run: a snapshot read, a call of the
external renderer `plot_scalarfield` (plot_cs.py), and the
`plt.figure` / `plt.savefig` / `plt.close` calls (plot_endgame.py). -/
inductive Event
  | read (path : String)
  | plot (path : String)
  | figure
  | save (path : String)
  | close
  deriving DecidableEq

def Event.isRead : Event → Bool
  | .read _ => true
  | _ => false

def Event.isSave : Event → Bool
  | .save _ => true
  | _ => false

/-- Color-scale variables of plot_cs.py after the `if tc==...` chain
(lines 18-28): `none` means the Python variable was never assigned. -/
structure CSBounds where
  hmin : Option ℚ
  hmax : Option ℚ
  umin : Option ℚ
  umax : Option ℚ
  vmin : Option ℚ
  vmax : Option ℚ
  deriving DecidableEq

def csBoundsOf (tc : Nat) : CSBounds :=
  if tc = 2 then
    { hmin := some 1000.0, hmax := some 3000.0
      umin := some (-30), umax := some (-60)
      vmin := none, vmax := none }
  else if tc = 5 then
    { hmin := some 5000.0, hmax := some 6000.0
      umin := some (-10), umax := some 40
      vmin := some (-25), vmax := some 25 }
  else if tc = 7 then
    { hmin := some 8800, hmax := some 10500
      umin := some (-50), umax := some 50
      vmin := some (-50), vmax := some 50 }
  else
    { hmin := none, hmax := none, umin := none, umax := none
      vmin := none, vmax := none }

/-- Color-scale variables of plot_endgame.py after the `if tc==...` chain
(lines 41-53). -/
structure EGBounds where
  hmin : Option ℚ
  hmax : Option ℚ
  umin : Option ℚ
  umax : Option ℚ
  vmin : Option ℚ
  vmax : Option ℚ
  pvmin : Option ℚ
  pvmax : Option ℚ
  vortmin : Option ℚ
  vortmax : Option ℚ
  deriving DecidableEq

def egBoundsOf (tc : Nat) : EGBounds :=
  if tc = 5 then
    { hmin := some 5000.0, hmax := some 6000.0
      umin := some (-10), umax := some 40
      vmin := some (-25), vmax := some 25
      pvmin := some (-3.1e-8), pvmax := some 3.1e-8
      vortmin := some (-3.6e-5), vortmax := some 4.7e-5 }
  else if tc = 7 then
    { hmin := some 8400, hmax := some 10500
      umin := some (-20), umax := some 85
      vmin := some (-45), vmax := some 45
      pvmin := some (-1.5e-8), pvmax := some 2.4e-8
      vortmin := some (-8.9e-5), vortmax := some 9.8e-5 }
  else
    { hmin := none, hmax := none, umin := none, umax := none
      vmin := none, vmax := none, pvmin := none, pvmax := none
      vortmin := none, vortmax := none }

/-- A call `plot_scalarfield(..., mn, mx, ...)` (plot_cs.py 96/102/109):
Python evaluates the argument expressions left to right, so an unassigned
`mn` (then `mx`) raises `NameError` before the renderer runs. -/
def plotCall (nmin nmax : String) (bmin bmax : Option ℚ) (out : String) : Except Err Event :=
  match bmin with
  | none => .error (.nameError nmin)
  | some _ =>
      match bmax with
      | none => .error (.nameError nmax)
      | some _ => .ok (.plot out)

/-- One `open`/`np.fromfile`/`np.reshape` block of plot_cs.py (54-56,
62-65, 71-73) for one field, timestamp and face. -/
def csReadField (fsB : String → Option (List Nat)) (tc gtype N : Nat) (field : String)
    (time : Int) (p : Fin 6) : Except Err Event :=
  let path := datadir ++ csFilename tc gtype N field time (p.1 + 1)
  match fsB path with
  | none => .error (.fileNotFound path)
  | some bs =>
      match loadTileField bs N N with
      | none => .error (.shapeMismatch path)
      | some _ => .ok (.read path)

/-- The inner `for p in range(0, 6)` loop of plot_cs.py (49-74): per face,
read the `h`, `u` and `v` snapshots.  Returns the events that happened
before the first exception, if any. -/
def csFaceLoop (fsB : String → Option (List Nat)) (tc gtype N : Nat) (time : Int) :
    List (Fin 6) → Except Err Unit × List Event
  | [] => (.ok (), [])
  | p :: rest =>
      match csReadField fsB tc gtype N "h" time p with
      | .error e => (.error e, [])
      | .ok e1 =>
          match csReadField fsB tc gtype N "u" time p with
          | .error e => (.error e, [e1])
          | .ok e2 =>
              match csReadField fsB tc gtype N "v" time p with
              | .error e => (.error e, [e1, e2])
              | .ok e3 =>
                  match csFaceLoop fsB tc gtype N time rest with
                  | (r, evs) => (r, e1 :: e2 :: e3 :: evs)

/-- One iteration of the outer timestamp loop of plot_cs.py (47-109):
the face loop, then the `h`, `u`, `v` renderer calls with the per-field
bounds. -/
def csTimeStep (fsB : String → Option (List Nat)) (tc gtype N : Nat) (b : CSBounds)
    (time : Int) : Except Err Unit × List Event :=
  match csFaceLoop fsB tc gtype N time (List.finRange 6) with
  | (.error e, evs) => (.error e, evs)
  | (.ok _, evs) =>
      match plotCall "hmin" "hmax" b.hmin b.hmax (csOutName tc gtype N "h" time) with
      | .error e => (.error e, evs)
      | .ok ph =>
          match plotCall "umin" "umax" b.umin b.umax (csOutName tc gtype N "u" time) with
          | .error e => (.error e, evs ++ [ph])
          | .ok pu =>
              match plotCall "vmin" "vmax" b.vmin b.vmax (csOutName tc gtype N "v" time) with
              | .error e => (.error e, evs ++ [ph, pu])
              | .ok pv => (.ok (), evs ++ [ph, pu, pv])

def csTimeLoop (fsB : String → Option (List Nat)) (tc gtype N : Nat) (b : CSBounds) :
    List Int → Except Err Unit × List Event
  | [] => (.ok (), [])
  | time :: rest =>
      match csTimeStep fsB tc gtype N b time with
      | (.error e, evs) => (.error e, evs)
      | (.ok _, evs) =>
          match csTimeLoop fsB tc gtype N b rest with
          | (r, evs') => (r, evs ++ evs')

/-- Whole-run model of plot_cs.py: assign the color-scale chain (18-28,
never raises), load and `astype(int)` the index (35), take
`len(timedata)` at the array allocations (40-45, raises `TypeError` on a
0-d array), then the timestamp loop. -/
def csMain (fsT : String → Option String) (fsB : String → Option (List Nat))
    (tc gtype N : Nat) : Except Err Unit × List Event :=
  match loadtxtInt fsT (idxFilename tc) with
  | .error e => (.error e, [])
  | .ok (.scalar _) => (.error .lenTypeError, [])
  | .ok (.vec ts) => csTimeLoop fsB tc gtype N (csBoundsOf tc) ts

/-! ### Whole-run model of plot_endgame.py

Structure of the script: load index (26), allocate arrays (31-35), assign
the color-scale chain (41-53, never raises), load all five fields for all
timestamps (58-64), build the `fmins`/`fmaxs` lists (72-73, evaluating
the bound variables left to right — the first unassigned one raises
`NameError`), then the plot loop (75-107) which per (timestamp, field)
creates a figure, saves `graphdir + stem + '.' + figformat` and closes
the figure. -/

/-- `field_names = ('h','u','v','pv','vort')` (plot_endgame.py 57): the
file-name order of the load and plot loops. -/
def egFieldNames : List String := ["h", "u", "v", "pv", "vort"]

/-- One `open`/`np.fromfile`/`np.reshape` block of plot_endgame.py (60-63). -/
def egReadField (fsB : String → Option (List Nat)) (tc N M : Nat) (name : String)
    (time : Int) : Except Err Event :=
  let path := datadir ++ egFilename tc name time N M
  match fsB path with
  | none => .error (.fileNotFound path)
  | some bs =>
      match loadTileField bs N M with
      | none => .error (.shapeMismatch path)
      | some _ => .ok (.read path)

/-- The inner `for field, name in zip(fields, field_names)` loop (59-64). -/
def egFieldLoop (fsB : String → Option (List Nat)) (tc N M : Nat) (time : Int) :
    List String → Except Err Unit × List Event
  | [] => (.ok (), [])
  | name :: rest =>
      match egReadField fsB tc N M name time with
      | .error e => (.error e, [])
      | .ok e1 =>
          match egFieldLoop fsB tc N M time rest with
          | (r, evs) => (r, e1 :: evs)

/-- The outer load loop `for t in range(0, len(timedata))` (58-64). -/
def egLoadLoop (fsB : String → Option (List Nat)) (tc N M : Nat) :
    List Int → Except Err Unit × List Event
  | [] => (.ok (), [])
  | time :: rest =>
      match egFieldLoop fsB tc N M time egFieldNames with
      | (.error e, evs) => (.error e, evs)
      | (.ok _, evs) =>
          match egLoadLoop fsB tc N M rest with
          | (r, evs') => (r, evs ++ evs')

/-- `fmins = [hmin, umin, vmin, pvmin, vortmin]` (line 72): Python
evaluates the list elements left to right, raising `NameError` at the
first unassigned variable. -/
def egMins (b : EGBounds) : Except Err (List ℚ) :=
  match b.hmin with
  | none => .error (.nameError "hmin")
  | some h =>
      match b.umin with
      | none => .error (.nameError "umin")
      | some u =>
          match b.vmin with
          | none => .error (.nameError "vmin")
          | some v =>
              match b.pvmin with
              | none => .error (.nameError "pvmin")
              | some pv =>
                  match b.vortmin with
                  | none => .error (.nameError "vortmin")
                  | some vo => .ok [h, u, v, pv, vo]

/-- `fmaxs = [hmax, umax, vmax, pvmax, vortmax]` (line 73). -/
def egMaxs (b : EGBounds) : Except Err (List ℚ) :=
  match b.hmax with
  | none => .error (.nameError "hmax")
  | some h =>
      match b.umax with
      | none => .error (.nameError "umax")
      | some u =>
          match b.vmax with
          | none => .error (.nameError "vmax")
          | some v =>
              match b.pvmax with
              | none => .error (.nameError "pvmax")
              | some pv =>
                  match b.vortmax with
                  | none => .error (.nameError "vortmax")
                  | some vo => .ok [h, u, v, pv, vo]

/-- One iteration of the plot loop (79-107): `plt.figure`, contour and
colorbar drawing, `plt.savefig(graphdir+filename+'.'+figformat)`,
`plt.close()`. -/
def egPlotIter (tc N M : Nat) (name : String) (time : Int) : List Event :=
  [.figure, .save (graphdir ++ egOutStem tc name time N M ++ "." ++ figformat), .close]

/-- The inner `for field, name, fmin, fmax in zip(...)` plot loop (76-107). -/
def egPlotFields (tc N M : Nat) (time : Int) : List String → List Event
  | [] => []
  | name :: rest => egPlotIter tc N M name time ++ egPlotFields tc N M time rest

/-- The outer plot loop `for t in range(0, len(timedata))` (75-107). -/
def egPlotLoop (tc N M : Nat) : List Int → List Event
  | [] => []
  | time :: rest => egPlotFields tc N M time egFieldNames ++ egPlotLoop tc N M rest

/-- Whole-run model of plot_endgame.py. -/
def egMain (fsT : String → Option String) (fsB : String → Option (List Nat))
    (tc N M : Nat) : Except Err Unit × List Event :=
  match loadtxtInt fsT (idxFilename tc) with
  | .error e => (.error e, [])
  | .ok (.scalar _) => (.error .lenTypeError, [])
  | .ok (.vec ts) =>
      match egLoadLoop fsB tc N M ts with
      | (.error e, evs) => (.error e, evs)
      | (.ok _, evs) =>
          match egMins (egBoundsOf tc) with
          | .error e => (.error e, evs)
          | .ok _ =>
              match egMaxs (egBoundsOf tc) with
              | .error e => (.error e, evs)
              | .ok _ => (.ok (), evs ++ egPlotLoop tc N M ts)

/-- Every `save` event is immediately followed by a `close` event: the
run never carries an open just-saved figure into the next loop
iteration. -/
def savesClosed : List Event → Bool
  | [] => true
  | .save _ :: .close :: rest => savesClosed rest
  | .save _ :: _ => false
  | _ :: rest => savesClosed rest

/-- Specification helper: the number denoted by a decimal digit string
(used only to prove that `natDigits` is injective). -/
def decodeDigits (l : List Char) : Nat :=
  l.foldl (fun a c => 10 * a + (c.toNat - 48)) 0

/-! ## Lemmas: decimal strings -/

theorem strData_append (s t : String) : (s ++ t).data = s.data ++ t.data := rfl

theorem strData_mk (l : List Char) : (String.mk l).data = l := rfl

theorem digitChar_isDigit {d : Nat} (h : d < 10) : (Nat.digitChar d).isDigit = true := by
  interval_cases d <;> decide

theorem digitChar_toNat48 {d : Nat} (h : d < 10) : (Nat.digitChar d).toNat - 48 = d := by
  interval_cases d <;> decide

theorem natDigitsAux_digits :
    ∀ fuel n, ∀ c ∈ natDigitsAux fuel n, c.isDigit = true := by
  intro fuel
  induction fuel with
  | zero => intro n c hc; simp [natDigitsAux] at hc
  | succ fuel ih =>
      intro n c hc
      rw [natDigitsAux] at hc
      by_cases h : n < 10
      · rw [if_pos h] at hc
        simp at hc
        subst hc
        exact digitChar_isDigit h
      · rw [if_neg h] at hc
        rcases List.mem_append.1 hc with h1 | h1
        · exact ih _ c h1
        · simp at h1
          subst h1
          exact digitChar_isDigit (Nat.mod_lt _ (by omega))

theorem natDigits_digits (n : Nat) : ∀ c ∈ natDigits n, c.isDigit = true :=
  natDigitsAux_digits _ n

theorem natDigitsAux_ne_nil :
    ∀ fuel n, fuel ≠ 0 → natDigitsAux fuel n ≠ [] := by
  intro fuel n h
  cases fuel with
  | zero => exact absurd rfl h
  | succ fuel =>
      rw [natDigitsAux]
      by_cases h10 : n < 10
      · rw [if_pos h10]; simp
      · rw [if_neg h10]; simp

theorem natDigits_ne_nil (n : Nat) : natDigits n ≠ [] :=
  natDigitsAux_ne_nil _ n (by omega)

theorem natDigitsAux_decode :
    ∀ fuel n, n < fuel → decodeDigits (natDigitsAux fuel n) = n := by
  intro fuel
  induction fuel with
  | zero => intro n h; omega
  | succ fuel ih =>
      intro n h
      rw [natDigitsAux]
      by_cases h10 : n < 10
      · rw [if_pos h10]
        show 10 * 0 + ((Nat.digitChar n).toNat - 48) = n
        rw [digitChar_toNat48 h10]
        omega
      · rw [if_neg h10]
        have hdiv : n / 10 < fuel := by
          have := Nat.div_lt_self (show 0 < n by omega) (show 1 < 10 by omega)
          omega
        unfold decodeDigits
        rw [List.foldl_append]
        show 10 * decodeDigits (natDigitsAux fuel (n / 10))
            + ((Nat.digitChar (n % 10)).toNat - 48) = n
        rw [ih _ hdiv, digitChar_toNat48 (Nat.mod_lt _ (by omega))]
        omega

theorem natDigits_inj {m n : Nat} (h : natDigits m = natDigits n) : m = n := by
  have hm := natDigitsAux_decode (m + 1) m (by omega)
  have hn := natDigitsAux_decode (n + 1) n (by omega)
  rw [show natDigitsAux (m + 1) m = natDigits m from rfl, h] at hm
  rw [show natDigitsAux (n + 1) n = natDigits n from rfl] at hn
  omega

theorem not_mem_natDigits {c : Char} (hc : c.isDigit = false) (n : Nat) :
    c ∉ natDigits n := by
  intro hmem
  have := natDigits_digits n c hmem
  rw [hc] at this
  exact Bool.noConfusion this

theorem not_mem_intDigits {c : Char} (hc : c.isDigit = false) (hminus : c ≠ '-')
    (i : Int) : c ∉ intDigits i := by
  unfold intDigits
  by_cases h : i < 0
  · rw [if_pos h]
    intro hmem
    rcases List.mem_cons.1 hmem with h1 | h1
    · exact hminus h1
    · exact not_mem_natDigits hc _ h1
  · rw [if_neg h]
    exact not_mem_natDigits hc _

theorem natDigits_head_digit (n : Nat) :
    ∃ c l, natDigits n = c :: l ∧ c.isDigit = true := by
  cases heq : natDigits n with
  | nil => exact absurd heq (natDigits_ne_nil n)
  | cons c l =>
      refine ⟨c, l, rfl, ?_⟩
      exact natDigits_digits n c (heq ▸ List.mem_cons_self c l)

theorem intDigits_inj {i j : Int} (h : intDigits i = intDigits j) : i = j := by
  unfold intDigits at h
  by_cases hi : i < 0 <;> by_cases hj : j < 0
  · rw [if_pos hi, if_pos hj] at h
    rw [List.cons.injEq] at h
    have := natDigits_inj h.2
    omega
  · rw [if_pos hi, if_neg hj] at h
    obtain ⟨c, l, heq, hc⟩ := natDigits_head_digit j.toNat
    rw [heq, List.cons.injEq] at h
    rw [← h.1] at hc
    exact absurd hc (by decide)
  · rw [if_neg hi, if_pos hj] at h
    obtain ⟨c, l, heq, hc⟩ := natDigits_head_digit i.toNat
    rw [heq, List.cons.injEq] at h
    rw [h.1] at hc
    exact absurd hc (by decide)
  · rw [if_neg hi, if_neg hj] at h
    have := natDigits_inj h
    omega

/-- Two character lists that both avoid a separator character, each
followed by that separator, can be recovered from the concatenation:
the backbone of file-name injectivity. -/
theorem avoid_sep {c : Char} :
    ∀ (a b r r' : List Char), c ∉ a → c ∉ b →
      a ++ c :: r = b ++ c :: r' → a = b ∧ r = r' := by
  intro a
  induction a with
  | nil =>
      intro b r r' _ hb h
      cases b with
      | nil => simpa using h
      | cons x b' =>
          simp only [List.nil_append, List.cons_append, List.cons.injEq] at h
          simp at hb
          exact absurd h.1 hb.1
  | cons x a' ih =>
      intro b r r' ha hb h
      cases b with
      | nil =>
          simp only [List.cons_append, List.nil_append, List.cons.injEq] at h
          simp at ha
          exact absurd h.1.symm ha.1
      | cons y b' =>
          simp only [List.cons_append, List.cons.injEq] at h
          obtain ⟨hxy, h2⟩ := h
          have := ih b' r r' (by simp at ha; exact ha.2) (by simp at hb; exact hb.2) h2
          exact ⟨by rw [hxy, this.1], this.2⟩

/-! ## Lemmas: file-name structure and injectivity -/

theorem csFilename_data (tc g N : Nat) (f : String) (t : Int) (fc : Nat) :
    (csFilename tc g N f t fc).data =
      't' :: 'c' :: (natDigits tc ++ '_' :: 'g' :: (natDigits g ++ '_' :: 'N' ::
        (natDigits N ++ '_' :: (f.data ++ '_' :: 't' :: (intDigits t
          ++ '_' :: 'f' :: 'a' :: 'c' :: 'e' :: (natDigits fc
            ++ ['.', 'd', 'a', 't'])))))) := by
  show ("tc" ++ natStr tc ++ "_g" ++ natStr g ++ "_N" ++ natStr N ++ "_" ++ f
    ++ "_t" ++ intStr t ++ "_face" ++ natStr fc ++ ".dat").data = _
  simp only [strData_append, natStr, intStr, strData_mk, List.append_assoc]
  rfl

theorem egFilename_data (tc : Nat) (nm : String) (t : Int) (N M : Nat) :
    (egFilename tc nm t N M).data =
      'e' :: 'g' :: '_' :: 's' :: 'w' :: 'e' :: '_' :: 'r' :: 'u' :: 'n' :: '_' :: 'i' :: 'c' ::
        (natDigits tc ++ '_' :: 'c' :: 'o' :: 'r' :: '1' :: '_' ::
          (nm.data ++ '_' :: 't' :: (intDigits t ++ '_' ::
            (natDigits N ++ 'x' :: (natDigits M ++ ['.', 'd', 'a', 't']))))) := by
  show ("eg_swe_run_ic" ++ natStr tc ++ "_cor1_" ++ nm ++ "_t" ++ intStr t
    ++ "_" ++ natStr N ++ "x" ++ natStr M ++ ".dat").data = _
  simp only [strData_append, natStr, intStr, strData_mk, List.append_assoc]
  rfl

theorem csFilename_inj (tc1 g1 N1 : Nat) (f1 : String) (t1 : Int) (fc1 : Nat)
    (tc2 g2 N2 : Nat) (f2 : String) (t2 : Int) (fc2 : Nat)
    (hf1 : '_' ∉ f1.data) (hf2 : '_' ∉ f2.data)
    (h : csFilename tc1 g1 N1 f1 t1 fc1 = csFilename tc2 g2 N2 f2 t2 fc2) :
    tc1 = tc2 ∧ g1 = g2 ∧ N1 = N2 ∧ f1 = f2 ∧ t1 = t2 ∧ fc1 = fc2 := by
  have hu : ('_' : Char).isDigit = false := by decide
  have hd := congrArg String.data h
  rw [csFilename_data, csFilename_data] at hd
  simp only [List.cons.injEq, true_and] at hd
  obtain ⟨htc, hd⟩ := avoid_sep _ _ _ _
    (not_mem_natDigits hu tc1) (not_mem_natDigits hu tc2) hd
  simp only [List.cons.injEq, true_and] at hd
  obtain ⟨hg, hd⟩ := avoid_sep _ _ _ _
    (not_mem_natDigits hu g1) (not_mem_natDigits hu g2) hd
  simp only [List.cons.injEq, true_and] at hd
  obtain ⟨hN, hd⟩ := avoid_sep _ _ _ _
    (not_mem_natDigits hu N1) (not_mem_natDigits hu N2) hd
  obtain ⟨hf, hd⟩ := avoid_sep _ _ _ _ hf1 hf2 hd
  simp only [List.cons.injEq, true_and] at hd
  obtain ⟨ht, hd⟩ := avoid_sep _ _ _ _
    (not_mem_intDigits hu (by decide) t1) (not_mem_intDigits hu (by decide) t2) hd
  simp only [List.cons.injEq, true_and] at hd
  have hp : ('.' : Char).isDigit = false := by decide
  obtain ⟨hfc, -⟩ := avoid_sep _ _ _ _
    (not_mem_natDigits hp fc1) (not_mem_natDigits hp fc2) hd
  exact ⟨natDigits_inj htc, natDigits_inj hg, natDigits_inj hN,
    String.ext hf, intDigits_inj ht, natDigits_inj hfc⟩

theorem egFilename_inj (tc1 : Nat) (nm1 : String) (t1 : Int) (N1 M1 : Nat)
    (tc2 : Nat) (nm2 : String) (t2 : Int) (N2 M2 : Nat)
    (hn1 : '_' ∉ nm1.data) (hn2 : '_' ∉ nm2.data)
    (h : egFilename tc1 nm1 t1 N1 M1 = egFilename tc2 nm2 t2 N2 M2) :
    tc1 = tc2 ∧ nm1 = nm2 ∧ t1 = t2 ∧ N1 = N2 ∧ M1 = M2 := by
  have hu : ('_' : Char).isDigit = false := by decide
  have hd := congrArg String.data h
  rw [egFilename_data, egFilename_data] at hd
  simp only [List.cons.injEq, true_and] at hd
  obtain ⟨htc, hd⟩ := avoid_sep _ _ _ _
    (not_mem_natDigits hu tc1) (not_mem_natDigits hu tc2) hd
  simp only [List.cons.injEq, true_and] at hd
  obtain ⟨hnm, hd⟩ := avoid_sep _ _ _ _ hn1 hn2 hd
  simp only [List.cons.injEq, true_and] at hd
  obtain ⟨ht, hd⟩ := avoid_sep _ _ _ _
    (not_mem_intDigits hu (by decide) t1) (not_mem_intDigits hu (by decide) t2) hd
  have hx : ('x' : Char).isDigit = false := by decide
  obtain ⟨hN, hd⟩ := avoid_sep _ _ _ _
    (not_mem_natDigits hx N1) (not_mem_natDigits hx N2) hd
  have hp : ('.' : Char).isDigit = false := by decide
  obtain ⟨hM, -⟩ := avoid_sep _ _ _ _
    (not_mem_natDigits hp M1) (not_mem_natDigits hp M2) hd
  exact ⟨natDigits_inj htc, String.ext hnm, intDigits_inj ht,
    natDigits_inj hN, natDigits_inj hM⟩

/-! ## Lemmas: the binary loader -/

theorem fromfile_length (bs : List Nat) : (fromfile bs).length = bs.length / 8 := by
  induction bs using fromfile.induct with
  | case1 b0 b1 b2 b3 b4 b5 b6 b7 rest ih =>
      simp [fromfile, ih]
      omega
  | case2 bs h =>
      rcases bs with _ | ⟨a, _ | ⟨b, _ | ⟨c, _ | ⟨d, _ | ⟨e, _ | ⟨f, _ | ⟨g, _ | ⟨i, rest⟩⟩⟩⟩⟩⟩⟩⟩
      · rfl
      · exact (show (fromfile [a]).length = 0 from rfl).trans (by simp)
      · exact (show (fromfile [a, b]).length = 0 from rfl).trans (by simp)
      · exact (show (fromfile [a, b, c]).length = 0 from rfl).trans (by simp)
      · exact (show (fromfile [a, b, c, d]).length = 0 from rfl).trans (by simp)
      · exact (show (fromfile [a, b, c, d, e]).length = 0 from rfl).trans (by simp)
      · exact (show (fromfile [a, b, c, d, e, f]).length = 0 from rfl).trans (by simp)
      · exact (show (fromfile [a, b, c, d, e, f, g]).length = 0 from rfl).trans (by simp)
      · exact absurd rfl (h a b c d e f g i rest)

theorem fromfile_get? (k : Nat) :
    ∀ bs : List Nat, (fromfile bs).get? k =
      if 8 * k + 8 ≤ bs.length then some ((bs.drop (8 * k)).take 8) else none := by
  induction k with
  | zero =>
      intro bs
      rcases bs with _ | ⟨a, _ | ⟨b, _ | ⟨c, _ | ⟨d, _ | ⟨e, _ | ⟨f, _ | ⟨g, _ | ⟨i, rest⟩⟩⟩⟩⟩⟩⟩⟩ <;>
        simp [fromfile]
  | succ k ih =>
      intro bs
      rcases bs with _ | ⟨a, _ | ⟨b, _ | ⟨c, _ | ⟨d, _ | ⟨e, _ | ⟨f, _ | ⟨g, _ | ⟨i, rest⟩⟩⟩⟩⟩⟩⟩⟩
      · simp [fromfile]
      · have h0 : ¬ (8 * (k + 1) + 8 ≤ [a].length) := by
          simp only [List.length_cons, List.length_nil]; omega
        simp only [fromfile, if_neg h0, List.get?]
      · have h0 : ¬ (8 * (k + 1) + 8 ≤ [a, b].length) := by
          simp only [List.length_cons, List.length_nil]; omega
        simp only [fromfile, if_neg h0, List.get?]
      · have h0 : ¬ (8 * (k + 1) + 8 ≤ [a, b, c].length) := by
          simp only [List.length_cons, List.length_nil]; omega
        simp only [fromfile, if_neg h0, List.get?]
      · have h0 : ¬ (8 * (k + 1) + 8 ≤ [a, b, c, d].length) := by
          simp only [List.length_cons, List.length_nil]; omega
        simp only [fromfile, if_neg h0, List.get?]
      · have h0 : ¬ (8 * (k + 1) + 8 ≤ [a, b, c, d, e].length) := by
          simp only [List.length_cons, List.length_nil]; omega
        simp only [fromfile, if_neg h0, List.get?]
      · have h0 : ¬ (8 * (k + 1) + 8 ≤ [a, b, c, d, e, f].length) := by
          simp only [List.length_cons, List.length_nil]; omega
        simp only [fromfile, if_neg h0, List.get?]
      · have h0 : ¬ (8 * (k + 1) + 8 ≤ [a, b, c, d, e, f, g].length) := by
          simp only [List.length_cons, List.length_nil]; omega
        simp only [fromfile, if_neg h0, List.get?]
      · show (fromfile (a :: b :: c :: d :: e :: f :: g :: i :: rest)).get? (k + 1) = _
        have h1 : fromfile (a :: b :: c :: d :: e :: f :: g :: i :: rest)
            = [a, b, c, d, e, f, g, i] :: fromfile rest := rfl
        rw [h1]
        have h2 : ([a, b, c, d, e, f, g, i] :: fromfile rest).get? (k + 1)
            = (fromfile rest).get? k := rfl
        rw [h2, ih rest]
        have h3 : (a :: b :: c :: d :: e :: f :: g :: i :: rest).drop (8 * (k + 1))
            = rest.drop (8 * k) := by
          have he : 8 * (k + 1) = 8 * k + 8 := by ring
          rw [he]
          have hr : rest.drop (8 * k)
              = ((a :: b :: c :: d :: e :: f :: g :: i :: rest).drop 8).drop (8 * k) := rfl
          rw [hr, List.drop_drop, Nat.add_comm]
        have h4 : (a :: b :: c :: d :: e :: f :: g :: i :: rest).length = rest.length + 8 := by
          simp
        rw [h3, h4]
        by_cases hc : 8 * k + 8 ≤ rest.length
        · rw [if_pos hc, if_pos (by omega)]
        · rw [if_neg hc, if_neg (by omega)]

theorem rowMajorIdx_lt (R C : Nat) (i : Fin R) (j : Fin C) : i.1 * C + j.1 < R * C :=
  calc i.1 * C + j.1 < i.1 * C + C := Nat.add_lt_add_left j.isLt _
    _ = (i.1 + 1) * C := by ring
    _ ≤ R * C := Nat.mul_le_mul_right C i.isLt

/-- Loading a payload of exactly `R*C*8` bytes succeeds and places the
`(i*C+j)`-th 8-byte double at position `(i, j)` (shared row-major law). -/
theorem loadTileField_spec (R C : Nat) (bs : List Nat) (h : bs.length = R * C * 8) :
    ∃ A, loadTileField bs R C = some A ∧
      ∀ (i : Fin R) (j : Fin C), A i j = (bs.drop (8 * (i.1 * C + j.1))).take 8 := by
  have hlen : (fromfile bs).length = R * C := by
    rw [fromfile_length, h, Nat.mul_div_cancel _ (by omega)]
  unfold loadTileField reshape
  rw [dif_pos hlen]
  refine ⟨_, rfl, ?_⟩
  intro i j
  have hidx : i.1 * C + j.1 < (fromfile bs).length := by
    rw [hlen]; exact rowMajorIdx_lt R C i j
  have hcond : 8 * (i.1 * C + j.1) + 8 ≤ bs.length := by
    rw [h]
    have h1 : i.1 * C + j.1 + 1 ≤ R * C := rowMajorIdx_lt R C i j
    have h2 : 8 * (i.1 * C + j.1 + 1) ≤ 8 * (R * C) := Nat.mul_le_mul_left 8 h1
    omega
  have hq := fromfile_get? (i.1 * C + j.1) bs
  rw [if_pos hcond, List.get?_eq_get hidx] at hq
  exact Option.some.inj hq

/-- Loading succeeds exactly when the number of complete 8-byte items in
the payload equals `R*C`; a trailing partial item is silently dropped by
`np.fromfile`, never rejected. -/
theorem loadTileField_isSome (R C : Nat) (bs : List Nat) :
    (loadTileField bs R C).isSome = true ↔ bs.length / 8 = R * C := by
  unfold loadTileField reshape
  by_cases hc : (fromfile bs).length = R * C
  · rw [dif_pos hc]
    simp only [Option.isSome_some, true_iff]
    rw [← fromfile_length, hc]
  · rw [dif_neg hc]
    simp only [Option.isSome_none, Bool.false_eq_true, false_iff]
    rw [← fromfile_length]
    exact hc

/-! ## Lemmas: the assembly loop -/

theorem assembleGo_ok_isSome (fsB : String → Option (List Nat)) (tc g N : Nat)
    (fld : String) (times : List Int) :
    ∀ (pairs : List (Fin times.length × Fin 6)) (A : Arr N times.length)
      (out : Arr N times.length × List String),
      assembleGo fsB tc g N fld times pairs A = .ok out →
      ∀ tp ∈ pairs,
        (fsB (datadir ++ csFilename tc g N fld (times.get tp.1) (tp.2.1 + 1))).isSome = true := by
  intro pairs
  induction pairs with
  | nil =>
      intro A out h tp htp
      simp at htp
  | cons hd rest ih =>
      obtain ⟨t, p⟩ := hd
      intro A out h tp htp
      rcases hfs : fsB (datadir ++ csFilename tc g N fld (times.get t) (p.1 + 1)) with _ | bs
      · simp only [assembleGo, hfs] at h
        exact Except.noConfusion h
      · simp only [assembleGo, hfs] at h
        rcases hload : loadTileField bs N N with _ | z
        · simp only [hload] at h
          exact Except.noConfusion h
        · simp only [hload] at h
          rcases hrec : assembleGo fsB tc g N fld times rest (writeSlice A p t z) with e | pr
          · simp only [hrec] at h
            exact Except.noConfusion h
          · obtain ⟨A', tr⟩ := pr
            rcases List.mem_cons.1 htp with heq | hmem
            · subst heq
              rw [hfs]
              rfl
            · exact ih (writeSlice A p t z) (A', tr) hrec tp hmem

theorem assembleGo_spec (fsB : String → Option (List Nat)) (tc g N : Nat)
    (fld : String) (times : List Int)
    (data : Fin times.length → Fin 6 → List Nat)
    (hfs : ∀ t p, fsB (datadir ++ csFilename tc g N fld (times.get t) (p.1 + 1))
      = some (data t p))
    (hlen : ∀ t p, (data t p).length = N * N * 8) :
    ∀ (pairs : List (Fin times.length × Fin 6)) (A0 : Arr N times.length),
      ∃ A tr, assembleGo fsB tc g N fld times pairs A0 = .ok (A, tr) ∧
        tr = pairs.map
          (fun tp => datadir ++ csFilename tc g N fld (times.get tp.1) (tp.2.1 + 1)) ∧
        ∀ (i j : Fin N) (p : Fin 6) (t : Fin times.length),
          ((t, p) ∈ pairs → A i j p t = ((data t p).drop (8 * (i.1 * N + j.1))).take 8) ∧
          ((t, p) ∉ pairs → A i j p t = A0 i j p t) := by
  intro pairs
  induction pairs with
  | nil =>
      intro A0
      exact ⟨A0, [], rfl, rfl,
        fun i j p t => ⟨fun hm => absurd hm (List.not_mem_nil _), fun _ => rfl⟩⟩
  | cons hd rest ih =>
      obtain ⟨t0, p0⟩ := hd
      intro A0
      obtain ⟨z, hz, hzval⟩ := loadTileField_spec N N (data t0 p0) (hlen t0 p0)
      obtain ⟨A, tr, hrec, htr, hval⟩ := ih (writeSlice A0 p0 t0 z)
      refine ⟨A, (datadir ++ csFilename tc g N fld (times.get t0) (p0.1 + 1)) :: tr,
        ?_, ?_, ?_⟩
      · simp only [assembleGo, hfs t0 p0, hz, hrec]
      · rw [htr]
        rfl
      · intro i j p t
        constructor
        · intro hm
          rcases List.mem_cons.1 hm with heq | hmem
          · rw [Prod.mk.injEq] at heq
            obtain ⟨h1, h2⟩ := heq
            subst h1
            subst h2
            by_cases hmem2 : (t, p) ∈ rest
            · exact (hval i j p t).1 hmem2
            · rw [(hval i j p t).2 hmem2]
              show (if p = p ∧ t = t then z i j else A0 i j p t) = _
              rw [if_pos ⟨rfl, rfl⟩]
              exact hzval i j
          · exact (hval i j p t).1 hmem
        · intro hnm
          have hnr : (t, p) ∉ rest := fun hx => hnm (List.mem_cons_of_mem _ hx)
          have hne : (t, p) ≠ (t0, p0) := fun hx => hnm (hx ▸ List.mem_cons_self _ _)
          rw [(hval i j p t).2 hnr]
          show (if p = p0 ∧ t = t0 then z i j else A0 i j p t) = _
          rw [if_neg]
          intro hc
          exact hne (by rw [Prod.mk.injEq]; exact ⟨hc.2, hc.1⟩)

theorem mem_allPairs {T : Nat} (t : Fin T) (p : Fin 6) : (t, p) ∈ allPairs T := by
  unfold allPairs
  rw [List.mem_product]
  exact ⟨List.mem_finRange t, List.mem_finRange p⟩

theorem allPairs_length (T : Nat) : (allPairs T).length = T * 6 := by
  unfold allPairs
  rw [List.length_product, List.length_finRange, List.length_finRange]

/-! ## Lemmas: the script run models -/

theorem csReadField_ok (fsB : String → Option (List Nat)) (tc g N : Nat) (fld : String)
    (time : Int) (p : Fin 6) (bs : List Nat)
    (hb : fsB (datadir ++ csFilename tc g N fld time (p.1 + 1)) = some bs)
    (hs : (loadTileField bs N N).isSome = true) :
    csReadField fsB tc g N fld time p
      = .ok (.read (datadir ++ csFilename tc g N fld time (p.1 + 1))) := by
  obtain ⟨z, hz⟩ := Option.isSome_iff_exists.1 hs
  simp only [csReadField, hb, hz]

theorem csFaceLoop_ok (fsB : String → Option (List Nat)) (tc g N : Nat)
    (hgood : ∀ fld, fld = "h" ∨ fld = "u" ∨ fld = "v" → ∀ (time : Int) (p : Fin 6),
      ∃ bs, fsB (datadir ++ csFilename tc g N fld time (p.1 + 1)) = some bs ∧
        (loadTileField bs N N).isSome = true) :
    ∀ (time : Int) (faces : List (Fin 6)),
      ∃ evs, csFaceLoop fsB tc g N time faces = (.ok (), evs) ∧
        evs.length = 3 * faces.length ∧ ∀ e ∈ evs, e.isRead = true := by
  intro time faces
  induction faces with
  | nil => exact ⟨[], rfl, rfl, fun e he => absurd he (List.not_mem_nil e)⟩
  | cons p rest ih =>
      obtain ⟨evs, hrec, hlen, hread⟩ := ih
      obtain ⟨bh, hbh, hsh⟩ := hgood "h" (Or.inl rfl) time p
      obtain ⟨bu, hbu, hsu⟩ := hgood "u" (Or.inr (Or.inl rfl)) time p
      obtain ⟨bv, hbv, hsv⟩ := hgood "v" (Or.inr (Or.inr rfl)) time p
      refine ⟨.read (datadir ++ csFilename tc g N "h" time (p.1 + 1))
          :: .read (datadir ++ csFilename tc g N "u" time (p.1 + 1))
          :: .read (datadir ++ csFilename tc g N "v" time (p.1 + 1)) :: evs, ?_, ?_, ?_⟩
      · simp only [csFaceLoop, csReadField_ok fsB tc g N "h" time p bh hbh hsh,
          csReadField_ok fsB tc g N "u" time p bu hbu hsu,
          csReadField_ok fsB tc g N "v" time p bv hbv hsv, hrec]
      · simp only [List.length_cons, hlen]
        ring
      · intro e he
        simp only [List.mem_cons] at he
        rcases he with rfl | rfl | rfl | hm
        · rfl
        · rfl
        · rfl
        · exact hread e hm

theorem egReadField_ok (fsB : String → Option (List Nat)) (tc N M : Nat) (nm : String)
    (time : Int) (bs : List Nat)
    (hb : fsB (datadir ++ egFilename tc nm time N M) = some bs)
    (hs : (loadTileField bs N M).isSome = true) :
    egReadField fsB tc N M nm time
      = .ok (.read (datadir ++ egFilename tc nm time N M)) := by
  obtain ⟨z, hz⟩ := Option.isSome_iff_exists.1 hs
  simp only [egReadField, hb, hz]

theorem egFieldLoop_ok (fsB : String → Option (List Nat)) (tc N M : Nat)
    (hgood : ∀ nm ∈ egFieldNames, ∀ time : Int,
      ∃ bs, fsB (datadir ++ egFilename tc nm time N M) = some bs ∧
        (loadTileField bs N M).isSome = true) (time : Int) :
    ∀ names, (∀ nm ∈ names, nm ∈ egFieldNames) →
      ∃ evs, egFieldLoop fsB tc N M time names = (.ok (), evs) ∧
        evs.length = names.length ∧ ∀ e ∈ evs, e.isRead = true := by
  intro names
  induction names with
  | nil => exact fun _ => ⟨[], rfl, rfl, fun e he => absurd he (List.not_mem_nil e)⟩
  | cons nm rest ih =>
      intro hsub
      obtain ⟨evs, hrec, hlen, hread⟩ := ih fun x hx => hsub x (List.mem_cons_of_mem _ hx)
      obtain ⟨bs, hb, hs⟩ := hgood nm (hsub nm (List.mem_cons_self _ _)) time
      refine ⟨.read (datadir ++ egFilename tc nm time N M) :: evs, ?_, ?_, ?_⟩
      · simp only [egFieldLoop, egReadField_ok fsB tc N M nm time bs hb hs, hrec]
      · simp only [List.length_cons, hlen]
      · intro e he
        simp only [List.mem_cons] at he
        rcases he with rfl | hm
        · rfl
        · exact hread e hm

theorem egLoadLoop_ok (fsB : String → Option (List Nat)) (tc N M : Nat)
    (hgood : ∀ nm ∈ egFieldNames, ∀ time : Int,
      ∃ bs, fsB (datadir ++ egFilename tc nm time N M) = some bs ∧
        (loadTileField bs N M).isSome = true) :
    ∀ ts : List Int,
      ∃ evs, egLoadLoop fsB tc N M ts = (.ok (), evs) ∧
        evs.length = 5 * ts.length ∧ ∀ e ∈ evs, e.isRead = true := by
  intro ts
  induction ts with
  | nil => exact ⟨[], rfl, rfl, fun e he => absurd he (List.not_mem_nil e)⟩
  | cons time rest ih =>
      obtain ⟨evs, hrec, hlen, hread⟩ := ih
      obtain ⟨evs1, hfl, hlen1, hread1⟩ :=
        egFieldLoop_ok fsB tc N M hgood time egFieldNames (fun _ hx => hx)
      refine ⟨evs1 ++ evs, ?_, ?_, ?_⟩
      · simp only [egLoadLoop, hfl, hrec]
      · simp only [List.length_append, hlen, hlen1]
        show (egFieldNames : List String).length + 5 * rest.length = 5 * (rest.length + 1)
        show 5 + 5 * rest.length = 5 * (rest.length + 1)
        ring
      · intro e he
        rcases List.mem_append.1 he with hm | hm
        · exact hread1 e hm
        · exact hread e hm

theorem isSave_false_of_isRead {e : Event} (h : e.isRead = true) : e.isSave = false := by
  cases e <;> simp_all [Event.isRead, Event.isSave]

theorem egReadField_ok_isRead (fsB : String → Option (List Nat)) (tc N M : Nat)
    (nm : String) (time : Int) (e : Event)
    (h : egReadField fsB tc N M nm time = .ok e) : e.isRead = true := by
  rcases hfs : fsB (datadir ++ egFilename tc nm time N M) with _ | bs
  · simp only [egReadField, hfs] at h
    exact Except.noConfusion h
  · simp only [egReadField, hfs] at h
    rcases hl : loadTileField bs N M with _ | z
    · simp only [hl] at h
      exact Except.noConfusion h
    · simp only [hl] at h
      rw [← Except.ok.inj h]
      rfl

theorem egFieldLoop_reads (fsB : String → Option (List Nat)) (tc N M : Nat) (time : Int) :
    ∀ (names : List String) (r : Except Err Unit) (evs : List Event),
      egFieldLoop fsB tc N M time names = (r, evs) → ∀ e ∈ evs, e.isRead = true := by
  intro names
  induction names with
  | nil =>
      intro r evs h e he
      rw [Prod.mk.injEq] at h
      rw [← h.2] at he
      exact absurd he (List.not_mem_nil e)
  | cons nm rest ih =>
      intro r evs h e he
      rcases her : egReadField fsB tc N M nm time with err | ev
      · simp only [egFieldLoop, her] at h
        rw [Prod.mk.injEq] at h
        rw [← h.2] at he
        exact absurd he (List.not_mem_nil e)
      · rcases hrec : egFieldLoop fsB tc N M time rest with ⟨r', evs'⟩
        simp only [egFieldLoop, her, hrec] at h
        rw [Prod.mk.injEq] at h
        rw [← h.2] at he
        rcases List.mem_cons.1 he with rfl | hm
        · exact egReadField_ok_isRead fsB tc N M nm time e her
        · exact ih r' evs' hrec e hm

theorem egLoadLoop_reads (fsB : String → Option (List Nat)) (tc N M : Nat) :
    ∀ (ts : List Int) (r : Except Err Unit) (evs : List Event),
      egLoadLoop fsB tc N M ts = (r, evs) → ∀ e ∈ evs, e.isRead = true := by
  intro ts
  induction ts with
  | nil =>
      intro r evs h e he
      rw [Prod.mk.injEq] at h
      rw [← h.2] at he
      exact absurd he (List.not_mem_nil e)
  | cons time rest ih =>
      intro r evs h e he
      rcases hfl : egFieldLoop fsB tc N M time egFieldNames with ⟨r1, evs1⟩
      cases r1 with
      | error err =>
          simp only [egLoadLoop, hfl] at h
          rw [Prod.mk.injEq] at h
          rw [← h.2] at he
          exact egFieldLoop_reads fsB tc N M time egFieldNames _ evs1 hfl e he
      | ok u =>
          rcases hrec : egLoadLoop fsB tc N M rest with ⟨r', evs'⟩
          simp only [egLoadLoop, hfl, hrec] at h
          rw [Prod.mk.injEq] at h
          rw [← h.2] at he
          rcases List.mem_append.1 he with hm | hm
          · exact egFieldLoop_reads fsB tc N M time egFieldNames _ evs1 hfl e hm
          · exact ih r' evs' hrec e hm

theorem savesClosed_of_noSave :
    ∀ evs : List Event, (∀ e ∈ evs, e.isSave = false) → savesClosed evs = true := by
  intro evs
  induction evs with
  | nil => intro; rfl
  | cons e rest ih =>
      intro h
      cases e with
      | save s =>
          have := h (.save s) (List.mem_cons_self _ _)
          simp [Event.isSave] at this
      | read s => exact ih fun x hx => h x (List.mem_cons_of_mem _ hx)
      | plot s => exact ih fun x hx => h x (List.mem_cons_of_mem _ hx)
      | figure => exact ih fun x hx => h x (List.mem_cons_of_mem _ hx)
      | close => exact ih fun x hx => h x (List.mem_cons_of_mem _ hx)

theorem savesClosed_append_noSave :
    ∀ l1 : List Event, (∀ e ∈ l1, e.isSave = false) →
      ∀ l2 : List Event, savesClosed l2 = true → savesClosed (l1 ++ l2) = true := by
  intro l1
  induction l1 with
  | nil => intro _ l2 h2; exact h2
  | cons e rest ih =>
      intro h l2 h2
      cases e with
      | save s =>
          have := h (.save s) (List.mem_cons_self _ _)
          simp [Event.isSave] at this
      | read s => exact ih (fun x hx => h x (List.mem_cons_of_mem _ hx)) l2 h2
      | plot s => exact ih (fun x hx => h x (List.mem_cons_of_mem _ hx)) l2 h2
      | figure => exact ih (fun x hx => h x (List.mem_cons_of_mem _ hx)) l2 h2
      | close => exact ih (fun x hx => h x (List.mem_cons_of_mem _ hx)) l2 h2

theorem egPlotFields_savesClosed (tc N M : Nat) (time : Int) :
    ∀ (names : List String) (l : List Event), savesClosed l = true →
      savesClosed (egPlotFields tc N M time names ++ l) = true := by
  intro names
  induction names with
  | nil => intro l hl; exact hl
  | cons nm rest ih => intro l hl; exact ih l hl

theorem egPlotLoop_savesClosed (tc N M : Nat) :
    ∀ (ts : List Int) (l : List Event), savesClosed l = true →
      savesClosed (egPlotLoop tc N M ts ++ l) = true := by
  intro ts
  induction ts with
  | nil => intro l hl; exact hl
  | cons time rest ih =>
      intro l hl
      show savesClosed ((egPlotFields tc N M time egFieldNames ++ egPlotLoop tc N M rest) ++ l)
        = true
      rw [List.append_assoc]
      exact egPlotFields_savesClosed tc N M time egFieldNames _ (ih l hl)

/-! ## Claim theorems -/

/-- C1: for every grid of `R` rows and `C` columns and every binary payload
of exactly `R*C*8` bytes, loading the file (read all bytes, interpret as a
flat sequence of float64 items, reshape to `R × C` row-major) succeeds and
yields an array whose element `(i, j)` is the `(i*C+j)`-th double of the
file (its bytes `8*(i*C+j) .. 8*(i*C+j)+8`). -/
theorem claim1_load_rowMajor (R C : Nat) (bs : List Nat) (h : bs.length = R * C * 8) :
    ∃ A, loadTileField bs R C = some A ∧
      ∀ (i : Fin R) (j : Fin C), A i j = (bs.drop (8 * (i.1 * C + j.1))).take 8 :=
  loadTileField_spec R C bs h

theorem claim1_load_rowMajor_check :
    (List.range 32).length = 2 * 2 * 8 ∧
    ∃ A, loadTileField (List.range 32) 2 2 = some A ∧
      ∀ (i : Fin 2) (j : Fin 2),
        A i j = ((List.range 32).drop (8 * (i.1 * 2 + j.1))).take 8 :=
  ⟨by decide, claim1_load_rowMajor 2 2 (List.range 32) (by decide)⟩

/-- C2 counterexample: a payload of 9 = 1*1*8+1 bytes (not a multiple of 8,
not equal to `R*C*8` for the expected 1×1 grid) does NOT fail: the loader
silently drops the trailing byte and returns a 1×1 array holding the first
8 bytes, refuting the claim that such a load must raise. -/
theorem claim2_counterexample :
    (loadTileField [0, 1, 2, 3, 4, 5, 6, 7, 8] 1 1).isSome = true ∧
    (loadTileField [0, 1, 2, 3, 4, 5, 6, 7, 8] 1 1).map (fun A => A 0 0)
      = some [0, 1, 2, 3, 4, 5, 6, 7] := by
  constructor
  · rfl
  · rfl

/-- C2 (amended): loading a snapshot of expected shape `R × C` succeeds
exactly when the number of complete 8-byte doubles in the file, `⌊len/8⌋`,
equals `R*C`; a trailing run of `0 < r < 8` bytes is silently discarded by
`np.fromfile` rather than rejected, so a file of `R*C*8 + r` bytes loads
as an `R × C` array, and only a complete-item count mismatch makes
`np.reshape` raise. -/
theorem claim2_amended (R C : Nat) (bs : List Nat) :
    (loadTileField bs R C).isSome = true ↔ bs.length / 8 = R * C :=
  loadTileField_isSome R C bs

/-- C3: loading the index file `TC<tc>_reftimes.dat` with content
`"0 100 200"` (or newline-delimited) yields the ordered sequence
`[0, 100, 200]`; an empty file yields the empty sequence; a missing file
raises the missing-index failure, and then the whole cubed-sphere run
aborts with that failure having performed no snapshot processing (empty
event trace). -/
theorem claim3_load_timestamps :
    (∀ (fsT : String → Option String) (tc : Nat),
      fsT (idxFilename tc) = some "0 100 200" →
      loadtxtInt fsT (idxFilename tc) = .ok (.vec [0, 100, 200])) ∧
    (∀ (fsT : String → Option String) (tc : Nat),
      fsT (idxFilename tc) = some "0\n100\n200" →
      loadtxtInt fsT (idxFilename tc) = .ok (.vec [0, 100, 200])) ∧
    (∀ (fsT : String → Option String) (tc : Nat),
      fsT (idxFilename tc) = some "" →
      loadtxtInt fsT (idxFilename tc) = .ok (.vec [])) ∧
    (∀ (fsT : String → Option String) (tc : Nat),
      fsT (idxFilename tc) = none →
      loadtxtInt fsT (idxFilename tc) = .error .missingIndexFile) ∧
    (∀ (fsT : String → Option String) (fsB : String → Option (List Nat)) (tc g N : Nat),
      fsT (idxFilename tc) = none →
      csMain fsT fsB tc g N = (.error .missingIndexFile, [])) := by
  refine ⟨?_, ?_, ?_, ?_, ?_⟩
  · intro fsT tc h
    unfold loadtxtInt
    rw [h]
    rfl
  · intro fsT tc h
    unfold loadtxtInt
    rw [h]
    rfl
  · intro fsT tc h
    unfold loadtxtInt
    rw [h]
    rfl
  · intro fsT tc h
    unfold loadtxtInt
    rw [h]
  · intro fsT fsB tc g N h
    have hidx : loadtxtInt fsT (idxFilename tc) = .error .missingIndexFile := by
      unfold loadtxtInt
      rw [h]
    simp only [csMain, hidx]

theorem claim3_load_timestamps_check :
    loadtxtInt (fun _ => some "0 100 200") (idxFilename 7) = .ok (.vec [0, 100, 200]) ∧
    loadtxtInt (fun _ => some "0\n100\n200") (idxFilename 7) = .ok (.vec [0, 100, 200]) ∧
    loadtxtInt (fun _ => some "") (idxFilename 7) = .ok (.vec []) ∧
    loadtxtInt (fun _ => none) (idxFilename 7) = .error .missingIndexFile ∧
    csMain (fun _ => none) (fun _ => none) 7 2 48 = (.error .missingIndexFile, []) :=
  ⟨claim3_load_timestamps.1 _ 7 rfl,
   claim3_load_timestamps.2.1 _ 7 rfl,
   claim3_load_timestamps.2.2.1 _ 7 rfl,
   claim3_load_timestamps.2.2.2.1 _ 7 rfl,
   claim3_load_timestamps.2.2.2.2 _ _ 7 2 48 rfl⟩

/-- C4: if the snapshot file of any (timestamp, tile) combination of a
field's iteration space is missing from the data directory, assembling
that field fails with an exception (the `open` call's FileNotFoundError is
unhandled): no array is produced at all, instead of skipping the missing
timestamp and continuing. -/
theorem claim4_missing_snapshot_aborts (fsB : String → Option (List Nat))
    (tc g N : Nat) (fld : String) (times : List Int)
    (hmiss : ∃ (t : Fin times.length) (p : Fin 6),
      fsB (datadir ++ csFilename tc g N fld (times.get t) (p.1 + 1)) = none) :
    ∃ e, assembleField fsB tc g N fld times = .error e := by
  obtain ⟨t, p, hnone⟩ := hmiss
  rcases hres : assembleField fsB tc g N fld times with e | out
  · exact ⟨e, rfl⟩
  · unfold assembleField at hres
    have := assembleGo_ok_isSome fsB tc g N fld times (allPairs times.length)
      (fun _ _ _ _ => zeroDouble) out hres (t, p) (mem_allPairs t p)
    rw [hnone] at this
    exact absurd this (by simp)

theorem claim4_missing_snapshot_aborts_check :
    (∃ (t : Fin ([0] : List Int).length) (p : Fin 6),
      (fun _ : String => (none : Option (List Nat)))
        (datadir ++ csFilename 7 2 48 "h" (([0] : List Int).get t) (p.1 + 1)) = none) ∧
    ∃ e, assembleField (fun _ => none) 7 2 48 "h" [0] = .error e :=
  ⟨⟨⟨0, by decide⟩, ⟨0, by decide⟩, rfl⟩,
   claim4_missing_snapshot_aborts (fun _ => none) 7 2 48 "h" [0]
     ⟨⟨0, by decide⟩, ⟨0, by decide⟩, rfl⟩⟩

/-- C5: assembling one field array over `T` timestamps and the 6
cubed-sphere tiles performs exactly `T*6` file reads (the returned trace
lists one read per (timestamp, tile) pair); each read populates only its
own (tile, timestamp) slice — cell `(i, j, p, t)` of the result is
determined solely by tile `p`/timestamp `t`'s own file, holding its
`(i*N+j)`-th double — and the populated volume, the full index space, has
exactly `N*N*6*T` cells. -/
theorem claim5_assemble_frame (fsB : String → Option (List Nat)) (tc g N : Nat)
    (fld : String) (times : List Int)
    (data : Fin times.length → Fin 6 → List Nat)
    (hfs : ∀ t p, fsB (datadir ++ csFilename tc g N fld (times.get t) (p.1 + 1))
      = some (data t p))
    (hlen : ∀ t p, (data t p).length = N * N * 8) :
    ∃ A tr, assembleField fsB tc g N fld times = .ok (A, tr) ∧
      tr.length = times.length * 6 ∧
      (∀ (i j : Fin N) (p : Fin 6) (t : Fin times.length),
        A i j p t = ((data t p).drop (8 * (i.1 * N + j.1))).take 8) ∧
      Fintype.card (Fin N × Fin N × Fin 6 × Fin times.length)
        = N * N * 6 * times.length := by
  obtain ⟨A, tr, hgo, htr, hval⟩ := assembleGo_spec fsB tc g N fld times data hfs hlen
    (allPairs times.length) (fun _ _ _ _ => zeroDouble)
  refine ⟨A, tr, hgo, ?_, ?_, ?_⟩
  · rw [htr, List.length_map, allPairs_length]
  · intro i j p t
    exact (hval i j p t).1 (mem_allPairs t p)
  · simp only [Fintype.card_prod, Fintype.card_fin]
    ring

theorem claim5_assemble_frame_check :
    (∀ (t : Fin ([0] : List Int).length) (p : Fin 6),
      (fun _ : String => some [10, 11, 12, 13, 14, 15, 16, 17])
          (datadir ++ csFilename 7 2 1 "h" (([0] : List Int).get t) (p.1 + 1))
        = some ((fun _ _ => [10, 11, 12, 13, 14, 15, 16, 17]) t p)) ∧
    (∀ (t : Fin ([0] : List Int).length) (p : Fin 6),
      ((fun _ _ => [10, 11, 12, 13, 14, 15, 16, 17]) t p : List Nat).length = 1 * 1 * 8) ∧
    ∃ A tr, assembleField (fun _ => some [10, 11, 12, 13, 14, 15, 16, 17]) 7 2 1 "h" [0]
        = .ok (A, tr) ∧
      tr.length = ([0] : List Int).length * 6 ∧
      (∀ (i j : Fin 1) (p : Fin 6) (t : Fin ([0] : List Int).length),
        A i j p t = (([10, 11, 12, 13, 14, 15, 16, 17] : List Nat).drop
          (8 * (i.1 * 1 + j.1))).take 8) ∧
      Fintype.card (Fin 1 × Fin 1 × Fin 6 × Fin ([0] : List Int).length)
        = 1 * 1 * 6 * ([0] : List Int).length :=
  ⟨fun _ _ => rfl, fun _ _ => rfl,
   claim5_assemble_frame (fun _ => some [10, 11, 12, 13, 14, 15, 16, 17]) 7 2 1 "h" [0]
     (fun _ _ => [10, 11, 12, 13, 14, 15, 16, 17]) (fun _ _ => rfl) (fun _ _ => rfl)⟩

/-- C6: snapshot file-name construction is injective for both naming
schemes: in the cubed-sphere scheme
`tc<tc>_g<gtype>_N<N>_<field>_t<time>_face<tile+1>.dat` (1-based tile) and
the lat-lon scheme `eg_swe_run_ic<tc>_cor1_<field>_t<time>_<N>x<M>.dat`,
two distinct parameter tuples (with field names free of `'_'`, as all the
scripts' field names are) never produce the same file name. -/
theorem claim6_filename_injective :
    (∀ (tc1 g1 N1 : Nat) (f1 : String) (t1 : Int) (p1 : Fin 6)
       (tc2 g2 N2 : Nat) (f2 : String) (t2 : Int) (p2 : Fin 6),
      '_' ∉ f1.data → '_' ∉ f2.data →
      csFilename tc1 g1 N1 f1 t1 (p1.1 + 1) = csFilename tc2 g2 N2 f2 t2 (p2.1 + 1) →
      (tc1, g1, N1, f1, t1, p1) = (tc2, g2, N2, f2, t2, p2)) ∧
    (∀ (tc1 : Nat) (n1 : String) (t1 : Int) (N1 M1 : Nat)
       (tc2 : Nat) (n2 : String) (t2 : Int) (N2 M2 : Nat),
      '_' ∉ n1.data → '_' ∉ n2.data →
      egFilename tc1 n1 t1 N1 M1 = egFilename tc2 n2 t2 N2 M2 →
      (tc1, n1, t1, N1, M1) = (tc2, n2, t2, N2, M2)) := by
  constructor
  · intro tc1 g1 N1 f1 t1 p1 tc2 g2 N2 f2 t2 p2 hf1 hf2 h
    obtain ⟨h1, h2, h3, h4, h5, h6⟩ :=
      csFilename_inj tc1 g1 N1 f1 t1 (p1.1 + 1) tc2 g2 N2 f2 t2 (p2.1 + 1) hf1 hf2 h
    have hp : p1 = p2 := Fin.ext (by omega)
    subst h1
    subst h2
    subst h3
    subst h4
    subst h5
    subst hp
    rfl
  · intro tc1 n1 t1 N1 M1 tc2 n2 t2 N2 M2 hn1 hn2 h
    obtain ⟨h1, h2, h3, h4, h5⟩ :=
      egFilename_inj tc1 n1 t1 N1 M1 tc2 n2 t2 N2 M2 hn1 hn2 h
    subst h1
    subst h2
    subst h3
    subst h4
    subst h5
    rfl

theorem claim6_filename_injective_check :
    ('_' ∉ "h".data ∧ '_' ∉ "u".data ∧ '_' ∉ "pv".data ∧ '_' ∉ "vort".data) ∧
    csFilename 7 2 48 "h" 0 ((0 : Fin 6).1 + 1)
      ≠ csFilename 7 2 48 "u" 0 ((0 : Fin 6).1 + 1) ∧
    egFilename 5 "pv" 86400 128 64 ≠ egFilename 5 "vort" 86400 128 64 := by
  refine ⟨⟨by decide, by decide, by decide, by decide⟩, ?_, ?_⟩
  · intro h
    have h2 := claim6_filename_injective.1 7 2 48 "h" 0 0 7 2 48 "u" 0 0
      (by decide) (by decide) h
    simp only [Prod.mk.injEq] at h2
    exact absurd h2.2.2.2.1 (by decide)
  · intro h
    have h2 := claim6_filename_injective.2 5 "pv" 86400 128 64 5 "vort" 86400 128 64
      (by decide) (by decide) h
    simp only [Prod.mk.injEq] at h2
    exact absurd h2.2.1 (by decide)

/-- C7: for every test case outside the configured sets ({2, 5, 7} in
plot_cs.py, {5, 7} in plot_endgame.py) the per-field color-scale bound
variables are never assigned, and a run over a non-empty index with all
snapshot files present fails with the undefined-variable fault
(`NameError` on the first bound read — `hmin`) only when the bounds are
first used, i.e. after snapshot I/O has already happened (the trace
contains reads), not as an up-front configuration-validation error. -/
theorem claim7_unknown_colorscale :
    (∀ tc : Nat, ¬(tc = 2 ∨ tc = 5 ∨ tc = 7) →
      csBoundsOf tc = ⟨none, none, none, none, none, none⟩ ∧
      ∀ (fsT : String → Option String) (fsB : String → Option (List Nat)) (g N : Nat)
        (time0 : Int) (restT : List Int),
        loadtxtInt fsT (idxFilename tc) = .ok (.vec (time0 :: restT)) →
        (∀ fld, fld = "h" ∨ fld = "u" ∨ fld = "v" → ∀ (time : Int) (p : Fin 6),
          ∃ bs, fsB (datadir ++ csFilename tc g N fld time (p.1 + 1)) = some bs ∧
            (loadTileField bs N N).isSome = true) →
        (csMain fsT fsB tc g N).1 = .error (.nameError "hmin") ∧
        ∃ e ∈ (csMain fsT fsB tc g N).2, e.isRead = true) ∧
    (∀ tc : Nat, ¬(tc = 5 ∨ tc = 7) →
      egBoundsOf tc = ⟨none, none, none, none, none, none, none, none, none, none⟩ ∧
      ∀ (fsT : String → Option String) (fsB : String → Option (List Nat)) (N M : Nat)
        (time0 : Int) (restT : List Int),
        loadtxtInt fsT (idxFilename tc) = .ok (.vec (time0 :: restT)) →
        (∀ nm ∈ egFieldNames, ∀ time : Int,
          ∃ bs, fsB (datadir ++ egFilename tc nm time N M) = some bs ∧
            (loadTileField bs N M).isSome = true) →
        (egMain fsT fsB tc N M).1 = .error (.nameError "hmin") ∧
        ∃ e ∈ (egMain fsT fsB tc N M).2, e.isRead = true) := by
  constructor
  · intro tc htc
    have hb : csBoundsOf tc = ⟨none, none, none, none, none, none⟩ := by
      unfold csBoundsOf
      rw [if_neg (fun hx => htc (Or.inl hx)),
        if_neg (fun hx => htc (Or.inr (Or.inl hx))),
        if_neg (fun hx => htc (Or.inr (Or.inr hx)))]
    refine ⟨hb, ?_⟩
    intro fsT fsB g N time0 restT hidx hgood
    obtain ⟨evs, hface, hlen, hreads⟩ := csFaceLoop_ok fsB tc g N hgood time0 (List.finRange 6)
    have hstep : csTimeStep fsB tc g N (csBoundsOf tc) time0
        = (.error (.nameError "hmin"), evs) := by
      simp only [csTimeStep, hface, hb, plotCall]
    have hmain : csMain fsT fsB tc g N = (.error (.nameError "hmin"), evs) := by
      simp only [csMain, hidx, csTimeLoop, hstep]
    rw [hmain]
    refine ⟨rfl, ?_⟩
    rcases evs with _ | ⟨e, es⟩
    · rw [List.length_finRange] at hlen
      exact absurd hlen (by simp)
    · exact ⟨e, List.mem_cons_self e es, hreads e (List.mem_cons_self e es)⟩
  · intro tc htc
    have hb : egBoundsOf tc
        = ⟨none, none, none, none, none, none, none, none, none, none⟩ := by
      unfold egBoundsOf
      rw [if_neg (fun hx => htc (Or.inl hx)), if_neg (fun hx => htc (Or.inr hx))]
    refine ⟨hb, ?_⟩
    intro fsT fsB N M time0 restT hidx hgood
    obtain ⟨evs, hload, hlen, hreads⟩ := egLoadLoop_ok fsB tc N M hgood (time0 :: restT)
    have hmins : egMins (egBoundsOf tc) = .error (.nameError "hmin") := by
      rw [hb]
      rfl
    have hmain : egMain fsT fsB tc N M = (.error (.nameError "hmin"), evs) := by
      simp only [egMain, hidx, hload, hmins]
    rw [hmain]
    refine ⟨rfl, ?_⟩
    rcases evs with _ | ⟨e, es⟩
    · rw [List.length_cons] at hlen
      exact absurd hlen (by simp)
    · exact ⟨e, List.mem_cons_self e es, hreads e (List.mem_cons_self e es)⟩

theorem claim7_unknown_colorscale_check :
    (¬((3 : Nat) = 2 ∨ (3 : Nat) = 5 ∨ (3 : Nat) = 7)) ∧
    ((csMain (fun _ => some "0 100") (fun _ => some [1, 2, 3, 4, 5, 6, 7, 8]) 3 2 1).1
        = .error (.nameError "hmin") ∧
      ∃ e ∈ (csMain (fun _ => some "0 100")
          (fun _ => some [1, 2, 3, 4, 5, 6, 7, 8]) 3 2 1).2, e.isRead = true) ∧
    ((egMain (fun _ => some "0 100") (fun _ => some [1, 2, 3, 4, 5, 6, 7, 8]) 3 1 1).1
        = .error (.nameError "hmin") ∧
      ∃ e ∈ (egMain (fun _ => some "0 100")
          (fun _ => some [1, 2, 3, 4, 5, 6, 7, 8]) 3 1 1).2, e.isRead = true) :=
  ⟨by decide,
   (claim7_unknown_colorscale.1 3 (by decide)).2 _ _ 2 1 0 [100] rfl
     (fun fld _ time p => ⟨[1, 2, 3, 4, 5, 6, 7, 8], rfl, by decide⟩),
   (claim7_unknown_colorscale.2 3 (by decide)).2 _ _ 1 1 0 [100] rfl
     (fun nm _ time => ⟨[1, 2, 3, 4, 5, 6, 7, 8], rfl, by decide⟩)⟩

/-- C8: in every run of the lat-lon script, whatever the file system and
configuration, every image save (`plt.savefig` to the output stem plus
`'.' + format`) is immediately followed by an explicit `plt.close()`
before the next loop iteration: the run never carries an open just-saved
figure from one save to the next. -/
theorem claim8_close_after_save (fsT : String → Option String)
    (fsB : String → Option (List Nat)) (tc N M : Nat) :
    savesClosed (egMain fsT fsB tc N M).2 = true := by
  rcases hidx : loadtxtInt fsT (idxFilename tc) with e | arr
  · simp only [egMain, hidx]
    rfl
  · cases arr with
    | scalar x =>
        simp only [egMain, hidx]
        rfl
    | vec ts =>
        rcases hload : egLoadLoop fsB tc N M ts with ⟨r, evs⟩
        have hnosave : ∀ e ∈ evs, e.isSave = false := fun e he =>
          isSave_false_of_isRead (egLoadLoop_reads fsB tc N M ts r evs hload e he)
        cases r with
        | error err =>
            simp only [egMain, hidx, hload]
            exact savesClosed_of_noSave evs hnosave
        | ok u =>
            rcases hmins : egMins (egBoundsOf tc) with e | mins
            · simp only [egMain, hidx, hload, hmins]
              exact savesClosed_of_noSave evs hnosave
            · rcases hmaxs : egMaxs (egBoundsOf tc) with e | maxs
              · simp only [egMain, hidx, hload, hmins, hmaxs]
                exact savesClosed_of_noSave evs hnosave
              · simp only [egMain, hidx, hload, hmins, hmaxs]
                have hplot : savesClosed (egPlotLoop tc N M ts) = true := by
                  have := egPlotLoop_savesClosed tc N M ts [] rfl
                  rw [List.append_nil] at this
                  exact this
                exact savesClosed_append_noSave evs hnosave _ hplot

/-- C9: if the index file contains exactly one timestamp token,
`np.loadtxt` squeezes the result to a 0-d array, `len(timedata)` at the
array-allocation line raises `TypeError`, and both scripts abort with an
empty event trace — before reading any snapshot file; a single-timestamp
test case can never be processed. -/
theorem claim9_single_timestamp (fsT : String → Option String)
    (fsB : String → Option (List Nat)) (tc g N M : Nat) (s : String) (x : Int)
    (hfile : fsT (idxFilename tc) = some s)
    (htok : parseToks (tokens s.data []) = some [x]) :
    loadtxtInt fsT (idxFilename tc) = .ok (.scalar x) ∧
    csMain fsT fsB tc g N = (.error .lenTypeError, []) ∧
    egMain fsT fsB tc N M = (.error .lenTypeError, []) := by
  have hidx : loadtxtInt fsT (idxFilename tc) = .ok (.scalar x) := by
    simp only [loadtxtInt, hfile, htok]
  exact ⟨hidx, by simp only [csMain, hidx], by simp only [egMain, hidx]⟩

theorem claim9_single_timestamp_check :
    loadtxtInt (fun _ => some "100") (idxFilename 7) = .ok (.scalar 100) ∧
    csMain (fun _ => some "100") (fun _ => none) 7 2 48 = (.error .lenTypeError, []) ∧
    egMain (fun _ => some "100") (fun _ => none) 7 128 64 = (.error .lenTypeError, []) :=
  claim9_single_timestamp (fun _ => some "100") (fun _ => none) 7 2 48 64 "100" 100
    rfl (by decide)

/-- C10: in plot_cs.py the `tc==2` branch assigns only the `h` and `u`
bounds — with the `u` bounds inverted, `umin = -30 > umax = -60` — and
never assigns `vmin`/`vmax`; hence a test-case-2 run over a non-empty
index with all files present renders `h` and `u` but dies with the
undefined-variable fault `NameError("vmin")` when rendering the `v`
field, even though 2 is one of the configured test cases. -/
theorem claim10_tc2_vmin_undefined :
    (csBoundsOf 2).vmin = none ∧ (csBoundsOf 2).vmax = none ∧
    (csBoundsOf 2).umin = some (-30) ∧ (csBoundsOf 2).umax = some (-60) ∧
    (∃ a b : ℚ, (csBoundsOf 2).umin = some a ∧ (csBoundsOf 2).umax = some b ∧ b < a) ∧
    ∀ (fsT : String → Option String) (fsB : String → Option (List Nat)) (g N : Nat)
      (time0 : Int) (restT : List Int),
      loadtxtInt fsT (idxFilename 2) = .ok (.vec (time0 :: restT)) →
      (∀ fld, fld = "h" ∨ fld = "u" ∨ fld = "v" → ∀ (time : Int) (p : Fin 6),
        ∃ bs, fsB (datadir ++ csFilename 2 g N fld time (p.1 + 1)) = some bs ∧
          (loadTileField bs N N).isSome = true) →
      (csMain fsT fsB 2 g N).1 = .error (.nameError "vmin") ∧
      .plot (csOutName 2 g N "h" time0) ∈ (csMain fsT fsB 2 g N).2 ∧
      .plot (csOutName 2 g N "u" time0) ∈ (csMain fsT fsB 2 g N).2 := by
  have hb : csBoundsOf 2 =
      { hmin := some 1000.0, hmax := some 3000.0
        umin := some (-30), umax := some (-60)
        vmin := none, vmax := none } := rfl
  refine ⟨rfl, rfl, rfl, rfl, ⟨-30, -60, rfl, rfl, by norm_num⟩, ?_⟩
  intro fsT fsB g N time0 restT hidx hgood
  obtain ⟨evs, hface, hlen, hreads⟩ := csFaceLoop_ok fsB 2 g N hgood time0 (List.finRange 6)
  have hstep : csTimeStep fsB 2 g N (csBoundsOf 2) time0
      = (.error (.nameError "vmin"),
         evs ++ [.plot (csOutName 2 g N "h" time0), .plot (csOutName 2 g N "u" time0)]) := by
    simp only [csTimeStep, hface, hb, plotCall]
  have hmain : csMain fsT fsB 2 g N
      = (.error (.nameError "vmin"),
         evs ++ [.plot (csOutName 2 g N "h" time0), .plot (csOutName 2 g N "u" time0)]) := by
    simp only [csMain, hidx, csTimeLoop, hstep]
  rw [hmain]
  refine ⟨rfl, ?_, ?_⟩
  · exact List.mem_append.2 (Or.inr (by simp))
  · exact List.mem_append.2 (Or.inr (by simp))

theorem claim10_tc2_vmin_undefined_check :
    (csMain (fun _ => some "0 100") (fun _ => some [1, 2, 3, 4, 5, 6, 7, 8]) 2 2 1).1
      = .error (.nameError "vmin") ∧
    .plot (csOutName 2 2 1 "h" 0)
      ∈ (csMain (fun _ => some "0 100") (fun _ => some [1, 2, 3, 4, 5, 6, 7, 8]) 2 2 1).2 ∧
    .plot (csOutName 2 2 1 "u" 0)
      ∈ (csMain (fun _ => some "0 100") (fun _ => some [1, 2, 3, 4, 5, 6, 7, 8]) 2 2 1).2 :=
  claim10_tc2_vmin_undefined.2.2.2.2.2 _ _ 2 1 0 [100] rfl
    (fun fld _ time p => ⟨[1, 2, 3, 4, 5, 6, 7, 8], rfl, by decide⟩)
